import Mathlib

/-!
# Verification of the aperturedb-node transport core

Shallow embedding, in Lean 4, of the transport/session core of the
`aperturedb-node` client library (`src/base.ts`, `src/parallel.ts`):
the wire codec, the length-prefixed frame reader, the session validity
check, the query retry loop, the parallel batch layer, the message
cache, the connection-validation probe, the connection pool and the
retry backoff computation.  Bytes are modelled as natural numbers,
buffers as `List Nat`, JavaScript numbers appearing in exact arithmetic
as `ℚ`, and fallible operations as `Option`/`Except`.
-/

namespace Aperture

/-! ## Little-endian 32-bit length prefixes

`Buffer.writeUInt32LE` / `Buffer.readUInt32LE` as used by `_sendMsg`
and `_recvMsg` in `src/base.ts`. -/

/-- The four bytes of `buf.writeUInt32LE(n, 0)` on a 4-byte buffer. -/
def encodeLE32 (n : Nat) : List Nat :=
  [n % 256, n / 256 % 256, n / 65536 % 256, n / 16777216 % 256]

/-- `buf.readUInt32LE(0)`: assemble the first four bytes, little-endian.
Missing bytes read as zero (the embedding only applies this to buffers
with at least four bytes). -/
def readLE32 (l : List Nat) : Nat :=
  l.getD 0 0 + 256 * l.getD 1 0 + 65536 * l.getD 2 0 + 16777216 * l.getD 3 0

@[simp] theorem encodeLE32_length (n : Nat) : (encodeLE32 n).length = 4 := rfl

theorem readLE32_encodeLE32_append (n : Nat) (rest : List Nat) (h : n < 4294967296) :
    readLE32 (encodeLE32 n ++ rest) = n := by
  simp only [encodeLE32, readLE32, List.cons_append, List.getD, List.get?_eq_getElem?]
  simp only [List.getElem?_cons_zero, List.getElem?_cons_succ, Option.getD_some]
  omega

theorem readLE32_encodeLE32 (n : Nat) (h : n < 4294967296) :
    readLE32 (encodeLE32 n) = n := by
  have := readLE32_encodeLE32_append n [] h
  simpa using this

@[simp] theorem encodeLE32_append_drop (n : Nat) (rest : List Nat) :
    (encodeLE32 n ++ rest).drop 4 = rest := by
  simp [encodeLE32]

/-! ## The wire message codec

Modelled from the spec: the repository's `QueryMessage` codec
(`src/proto/queryMessage.ts`) is not among the provided sources — only
its callers in `src/base.ts` are.  Per the spec's contract
`encode(json, token, blobs[]) -> bytes`, `decode(bytes) -> (json, blobs[])`:
the encoded payload packs the command text, the current session token,
and the ordered blob list into one binary message, and `decode` must
tolerate an empty payload (a zero-length message is a valid "no content"
response, not an error).  The command text and token are modelled as
byte lists. -/

/-- Modelled from the spec: `encode(json, token, blobs[]) -> bytes`.
Packs the command text, the session token and the ordered blob list
into one contiguous byte sequence, each piece length-prefixed. -/
def qmEncode (json token : List Nat) (blobs : List (List Nat)) : List Nat :=
  encodeLE32 json.length ++ json ++
  encodeLE32 token.length ++ token ++
  encodeLE32 blobs.length ++
  (blobs.map (fun b => encodeLE32 b.length ++ b)).flatten

/-- Modelled from the spec: decode the length-prefixed blob sequence;
`count` is the declared number of blobs. -/
def qmDecodeBlobs : Nat → List Nat → Option (List (List Nat))
  | 0, rest => if rest = [] then some [] else none
  | k + 1, bytes =>
    if bytes.length < 4 then none
    else
      let n := readLE32 bytes
      let body := bytes.drop 4
      if body.length < n then none
      else (qmDecodeBlobs k (body.drop n)).map (body.take n :: ·)

/-- Modelled from the spec: `decode(bytes) -> (json, blobs[])`.  The
session token is parsed off the wire but not returned.  An empty
payload is tolerated as a valid "no content" response. -/
def qmDecode (bytes : List Nat) : Option (List Nat × List (List Nat)) :=
  if bytes = [] then some ([], [])
  else
    if bytes.length < 4 then none
    else
      let jn := readLE32 bytes
      let r1 := bytes.drop 4
      if r1.length < jn then none
      else
        let json := r1.take jn
        let r2 := r1.drop jn
        if r2.length < 4 then none
        else
          let tn := readLE32 r2
          let r3 := r2.drop 4
          if r3.length < tn then none
          else
            let r4 := r3.drop tn
            if r4.length < 4 then none
            else
              let bn := readLE32 r4
              (qmDecodeBlobs bn (r4.drop 4)).map (fun bs => (json, bs))

theorem qmDecodeBlobs_encoded (blobs : List (List Nat))
    (h : ∀ b ∈ blobs, b.length < 4294967296) :
    qmDecodeBlobs blobs.length ((blobs.map (fun b => encodeLE32 b.length ++ b)).flatten)
      = some blobs := by
  induction blobs with
  | nil => simp [qmDecodeBlobs]
  | cons b bs ih =>
    have hb : b.length < 4294967296 := h b (by simp)
    have hbs : ∀ x ∈ bs, x.length < 4294967296 := fun x hx => h x (by simp [hx])
    simp only [List.map_cons, List.flatten_cons, List.length_cons, qmDecodeBlobs]
    rw [List.append_assoc]
    rw [readLE32_encodeLE32_append _ _ hb]
    have hlen : 4 ≤ (encodeLE32 b.length ++ (b ++ (bs.map fun x => encodeLE32 x.length ++ x).flatten)).length := by
      simp [encodeLE32]
    rw [if_neg (by omega)]
    simp only [encodeLE32_append_drop]
    rw [if_neg (by simp only [List.length_append]; omega)]
    rw [List.take_append_of_le_length (le_refl _), List.take_length]
    rw [List.drop_append_of_le_length (le_refl _), List.drop_length, List.nil_append]
    rw [ih hbs]
    rfl

theorem qmEncode_length_ge (j t : List Nat) (bs : List (List Nat)) :
    4 ≤ (qmEncode j t bs).length := by
  simp only [qmEncode, List.length_append, encodeLE32_length]
  omega

/-- C1.  For every valid triple `(json, token, blobs)`, decoding the
codec's encoding of that triple returns exactly `(json, blobs)`: the
command text and the ordered blob list survive the round-trip
unchanged, and the token is carried on the wire (it occurs inside the
encoded bytes) but is not returned by `decode`. -/
theorem c1_codec_round_trip (json token : List Nat) (blobs : List (List Nat))
    (hj : json.length < 4294967296) (ht : token.length < 4294967296)
    (hb : blobs.length < 4294967296)
    (hbs : ∀ b ∈ blobs, b.length < 4294967296) :
    qmDecode (qmEncode json token blobs) = some (json, blobs) ∧
    token <:+: qmEncode json token blobs := by
  have hge := qmEncode_length_ge json token blobs
  have hne : qmEncode json token blobs ≠ [] := by
    intro h
    rw [h] at hge
    simp at hge
  constructor
  · simp only [qmDecode]
    rw [if_neg hne, if_neg (by omega)]
    simp only [qmEncode, List.append_assoc]
    rw [readLE32_encodeLE32_append _ _ hj]
    simp only [encodeLE32_append_drop]
    rw [if_neg (by simp only [List.length_append]; omega)]
    rw [List.take_append_of_le_length (le_refl _), List.take_length]
    rw [List.drop_append_of_le_length (le_refl _), List.drop_length, List.nil_append]
    rw [if_neg (by simp only [List.length_append, encodeLE32_length]; omega)]
    rw [readLE32_encodeLE32_append _ _ ht]
    simp only [encodeLE32_append_drop]
    rw [if_neg (by simp only [List.length_append]; omega)]
    rw [List.drop_append_of_le_length (le_refl _), List.drop_length, List.nil_append]
    rw [if_neg (by simp only [List.length_append, encodeLE32_length]; omega)]
    rw [readLE32_encodeLE32_append _ _ hb]
    simp only [encodeLE32_append_drop]
    rw [qmDecodeBlobs_encoded blobs hbs]
    rfl
  · exact ⟨encodeLE32 json.length ++ json ++ encodeLE32 token.length,
      encodeLE32 blobs.length ++ (blobs.map fun b => encodeLE32 b.length ++ b).flatten,
      by simp only [qmEncode, List.append_assoc]⟩

/-- Witness for C1 at a concrete triple. -/
theorem c1_codec_round_trip_witness :
    qmDecode (qmEncode [104, 105] [116, 111, 107] [[1, 2, 3], []])
        = some ([104, 105], [[1, 2, 3], []]) ∧
    [116, 111, 107] <:+: qmEncode [104, 105] [116, 111, 107] [[1, 2, 3], []] :=
  c1_codec_round_trip [104, 105] [116, 111, 107] [[1, 2, 3], []]
    (by decide) (by decide) (by decide) (by decide)

/-! ## The length-prefixed frame reader

`BaseClient._recvMsg` (`src/base.ts:551-699`).  The promise's local
state (`lengthBuffer`, `messageLength`, `messageBuffer`, `bytesRead`)
becomes `RecvState`; each `'data'` event becomes one `onData` step;
`'end'`/`'close'` become `onEndF`/`onCloseF`.  `messageLength = -1`
("still reading the length prefix") is modelled as `none`, and the
preallocated `messageBuffer` as the list of body bytes written so far
(its first `bytesRead` cells). -/

/-- The local state of one `_recvMsg` promise. -/
structure RecvState where
  lengthBuffer : List Nat
  messageLength : Option Nat
  messageBuffer : List Nat
  bytesRead : Nat
  deriving Repr, DecidableEq

/-- Fresh state at the start of `_recvMsg`. -/
def initRecv : RecvState := ⟨[], none, [], 0⟩

/-- The effect of one `'data'` callback: keep waiting, resolve with a
complete message, or reject. -/
inductive StepRes where
  | pending (st : RecvState)
  | resolved (msg : List Nat)
  | rejected (msg : String)
  deriving Repr, DecidableEq

/-- The `onData` handler of `_recvMsg`, translated statement by
statement from `src/base.ts:568-650`. -/
def onData (st : RecvState) (chunk : List Nat) : StepRes :=
  match st.messageLength with
  | none =>
    let lb := st.lengthBuffer ++ chunk
    if 4 ≤ lb.length then
      let n := readLE32 lb
      if n = 0 then .resolved []
      else
        let extra := lb.drop 4
        let toCopy := min extra.length n
        if toCopy = n then .resolved (extra.take toCopy)
        else .pending ⟨lb, some n, extra.take toCopy, toCopy⟩
    else .pending ⟨lb, none, st.messageBuffer, st.bytesRead⟩
  | some n =>
    let remaining := n - st.bytesRead
    let toCopy := min chunk.length remaining
    let buf := st.messageBuffer ++ chunk.take toCopy
    let read := st.bytesRead + toCopy
    if read = n then .resolved buf
    else if n < read then .rejected "Received more data than expected"
    else .pending ⟨st.lengthBuffer, some n, buf, read⟩

/-- The `onEnd` handler of `_recvMsg` (`src/base.ts:658-675`): a clean
close with no length and no bytes resolves `null` (`ok none`); a close
mid-length or mid-body rejects. -/
def onEndF (st : RecvState) : Except String (Option (List Nat)) :=
  match st.messageLength with
  | none =>
    if st.lengthBuffer = [] then .ok none
    else .error "Connection ended while reading message length"
  | some n =>
    if st.bytesRead < n then .error "Connection ended while reading message body"
    else .ok (some st.messageBuffer)

/-- The `onClose` handler of `_recvMsg` (`src/base.ts:677-685`). -/
def onCloseF (hadError : Bool) (st : RecvState) : Except String (Option (List Nat)) :=
  if hadError then .error "Socket closed with error" else onEndF st

/-- Outcome of one `_recvMsg` call over a sequence of `'data'` chunks. -/
inductive RunRes where
  | pending (st : RecvState)
  | resolvedRun (msg : List Nat)
  | rejectedRun (msg : String)
  deriving Repr, DecidableEq

/-- Drive one `_recvMsg` call with successive `'data'` chunks.  After
resolution the promise's listeners are removed (`cleanup()`), so later
chunks no longer reach this call. -/
def runRecv : RecvState → List (List Nat) → RunRes
  | st, [] => .pending st
  | st, c :: cs =>
    match onData st c with
    | .pending st2 => runRecv st2 cs
    | .resolved m => .resolvedRun m
    | .rejected e => .rejectedRun e

/-- Successive `_recvMsg` calls over a chunk stream: when one call
resolves, the next call starts with a fresh state and sees only the
chunks delivered after the resolving one — exactly as in the source,
where `cleanup()` removes the `'data'` listener and the unconsumed tail
of the resolving chunk is dropped. -/
def framesReceived : RecvState → List (List Nat) → List (List Nat)
  | _, [] => []
  | st, c :: cs =>
    match onData st c with
    | .pending st2 => framesReceived st2 cs
    | .resolved m => m :: framesReceived initRecv cs
    | .rejected _ => []

/-- A full frame as produced by `_sendMsg`: 4-byte little-endian length
prefix followed by the payload. -/
def encodeFrame (payload : List Nat) : List Nat :=
  encodeLE32 payload.length ++ payload

/-- C2, counterexample.  Deliver frame 1 (`encodeFrame [7]`) together
with the first byte of frame 2 (`encodeFrame [8]`) in one chunk, then
the rest of frame 2 in a second chunk.  The claim predicts that the
leftover byte is applied to the next frame, so that both frames
`[7]` and `[8]` are received; the code instead discards the leftover
byte, receives `[7]` only, and misparses the second frame's truncated
length prefix. -/
theorem c2_counterexample :
    ¬ framesReceived initRecv
        [encodeFrame [7] ++ (encodeFrame [8]).take 1, (encodeFrame [8]).drop 1]
      = [[7], [8]] := by decide

theorem readLE32_take (l : List Nat) (k : Nat) (hk : 4 ≤ k) :
    readLE32 (l.take k) = readLE32 l := by
  simp only [readLE32, List.getD_eq_getElem?_getD, List.getElem?_take]
  rw [if_pos (by omega), if_pos (by omega), if_pos (by omega), if_pos (by omega)]

@[simp] theorem encodeFrame_length (payload : List Nat) :
    (encodeFrame payload).length = 4 + payload.length := by
  simp [encodeFrame]

theorem encodeFrame_append_drop_four (payload rest : List Nat) :
    (encodeFrame payload ++ rest).drop 4 = payload ++ rest := by
  simp [encodeFrame, List.append_assoc]

theorem readLE32_encodeFrame_append (payload rest : List Nat)
    (hlen : payload.length < 4294967296) :
    readLE32 (encodeFrame payload ++ rest) = payload.length := by
  have h : encodeFrame payload ++ rest = encodeLE32 payload.length ++ (payload ++ rest) := by
    simp [encodeFrame, List.append_assoc]
  rw [h, readLE32_encodeLE32_append _ _ hlen]

/-- The abstract "position" invariant of the frame reader: after
consuming the first `k` bytes of a frame, the reader state is
determined (up to the no-longer-consulted `lengthBuffer` once the
length is known). -/
def RecvInv (payload : List Nat) (k : Nat) (st : RecvState) : Prop :=
  if k < 4 then st = ⟨(encodeFrame payload).take k, none, [], 0⟩
  else st.messageLength = some payload.length ∧
       st.messageBuffer = payload.take (k - 4) ∧
       st.bytesRead = k - 4

theorem onData_stepA (payload rest chunk tail : List Nat)
    (hlen : payload.length < 4294967296) (k : Nat)
    (hk4 : k < 4)
    (hchunk : chunk ++ tail = (encodeFrame payload ++ rest).drop k) :
    (k + chunk.length < 4 + payload.length →
      ∃ st2, onData ⟨(encodeFrame payload).take k, none, [], 0⟩ chunk = .pending st2 ∧
        RecvInv payload (k + chunk.length) st2) ∧
    (4 + payload.length ≤ k + chunk.length →
      onData ⟨(encodeFrame payload).take k, none, [], 0⟩ chunk = .resolved payload) := by
  have hcl : chunk.length + tail.length = 4 + payload.length + rest.length - k := by
    have h := congrArg List.length hchunk
    simp only [List.length_append, List.length_drop, encodeFrame_length] at h
    omega
  have hkle : k + chunk.length ≤ 4 + payload.length + rest.length := by omega
  have hchunk2 : chunk = ((encodeFrame payload ++ rest).drop k).take chunk.length := by
    rw [← hchunk, List.take_append_of_le_length (le_refl _), List.take_length]
  have hkf : k ≤ (encodeFrame payload).length := by
    rw [encodeFrame_length]; omega
  have hlb : (encodeFrame payload).take k ++ chunk
      = (encodeFrame payload ++ rest).take (k + chunk.length) := by
    rw [List.take_add, List.take_append_of_le_length hkf, ← hchunk2]
  have hlbl : ((encodeFrame payload ++ rest).take (k + chunk.length)).length
      = k + chunk.length := by
    rw [List.length_take, List.length_append, encodeFrame_length]
    omega
  simp only [onData, hlb]
  by_cases h4 : k + chunk.length < 4
  · have hnotle : ¬ 4 ≤ ((encodeFrame payload ++ rest).take (k + chunk.length)).length := by
      rw [hlbl]; omega
    rw [if_neg hnotle]
    refine ⟨fun _ => ⟨_, rfl, ?_⟩, fun h => absurd h (by omega)⟩
    rw [RecvInv, if_pos h4]
    have htk : k + chunk.length ≤ (encodeFrame payload).length := by
      rw [encodeFrame_length]; omega
    have heq : (encodeFrame payload ++ rest).take (k + chunk.length)
        = (encodeFrame payload).take (k + chunk.length) :=
      List.take_append_of_le_length htk
    rw [heq]
  · have hle4 : 4 ≤ ((encodeFrame payload ++ rest).take (k + chunk.length)).length := by
      rw [hlbl]; omega
    rw [if_pos hle4]
    have hread : readLE32 ((encodeFrame payload ++ rest).take (k + chunk.length))
        = payload.length := by
      rw [readLE32_take _ _ (by omega), readLE32_encodeFrame_append _ _ hlen]
    rw [hread]
    by_cases hn0 : payload.length = 0
    · have hpe : payload = [] := List.length_eq_zero.mp hn0
      rw [if_pos hn0]
      exact ⟨fun h => absurd h (by omega), fun _ => by rw [hpe]⟩
    · rw [if_neg hn0]
      have hextra : ((encodeFrame payload ++ rest).take (k + chunk.length)).drop 4
          = (payload ++ rest).take (k + chunk.length - 4) := by
        rw [List.drop_take, encodeFrame_append_drop_four]
      have hextlen : ((payload ++ rest).take (k + chunk.length - 4)).length
          = k + chunk.length - 4 := by
        rw [List.length_take, List.length_append]
        omega
      rw [hextra, hextlen]
      by_cases hcomp : k + chunk.length < 4 + payload.length
      · have htc : min (k + chunk.length - 4) payload.length = k + chunk.length - 4 := by
          omega
        have hne : ¬ k + chunk.length - 4 = payload.length := by omega
        rw [htc, if_neg hne]
        refine ⟨fun _ => ⟨_, rfl, ?_⟩, fun h => absurd h (by omega)⟩
        rw [RecvInv, if_neg (by omega)]
        refine ⟨rfl, ?_, rfl⟩
        show ((payload ++ rest).take (k + chunk.length - 4)).take (k + chunk.length - 4)
            = payload.take (k + chunk.length - 4)
        have h1 : ((payload ++ rest).take (k + chunk.length - 4)).take (k + chunk.length - 4)
            = (payload ++ rest).take (k + chunk.length - 4) := by
          rw [List.take_take]
          congr 1
          omega
        have h2 : (payload ++ rest).take (k + chunk.length - 4)
            = payload.take (k + chunk.length - 4) :=
          List.take_append_of_le_length (by omega)
        rw [h1, h2]
      · have htc : min (k + chunk.length - 4) payload.length = payload.length := by
          omega
        rw [htc, if_pos rfl]
        refine ⟨fun h => absurd h (by omega), fun _ => ?_⟩
        have h1 : ((payload ++ rest).take (k + chunk.length - 4)).take payload.length
            = (payload ++ rest).take payload.length := by
          rw [List.take_take]
          congr 1
          omega
        have h2 : (payload ++ rest).take payload.length = payload := by
          rw [List.take_append_of_le_length (le_refl _), List.take_length]
        rw [h1, h2]

theorem onData_stepB (payload rest chunk tail : List Nat)
    (k : Nat) (lb mb : List Nat) (br : Nat)
    (hk4 : 4 ≤ k) (hk : k < 4 + payload.length)
    (hmb : mb = payload.take (k - 4))
    (hbr : br = k - 4)
    (hchunk : chunk ++ tail = (encodeFrame payload ++ rest).drop k) :
    (k + chunk.length < 4 + payload.length →
      ∃ st2, onData ⟨lb, some payload.length, mb, br⟩ chunk = .pending st2 ∧
        RecvInv payload (k + chunk.length) st2) ∧
    (4 + payload.length ≤ k + chunk.length →
      onData ⟨lb, some payload.length, mb, br⟩ chunk = .resolved payload) := by
  subst hmb hbr
  have hcl : chunk.length + tail.length = 4 + payload.length + rest.length - k := by
    have h := congrArg List.length hchunk
    simp only [List.length_append, List.length_drop, encodeFrame_length] at h
    omega
  have hchunk2 : chunk = ((encodeFrame payload ++ rest).drop k).take chunk.length := by
    rw [← hchunk, List.take_append_of_le_length (le_refl _), List.take_length]
  have hd1 : (encodeFrame payload ++ rest).drop k = (payload ++ rest).drop (k - 4) := by
    rw [← encodeFrame_append_drop_four payload rest, List.drop_drop]
    congr 1
    omega
  have hd2 : (payload ++ rest).drop (k - 4) = payload.drop (k - 4) ++ rest :=
    List.drop_append_of_le_length (by omega)
  have hchunk3 : chunk = (payload.drop (k - 4) ++ rest).take chunk.length := by
    conv_lhs => rw [hchunk2, hd1, hd2]
  have hrem : (payload.drop (k - 4)).length = payload.length - (k - 4) := by
    rw [List.length_drop]
  simp only [onData]
  by_cases hcomp : k + chunk.length < 4 + payload.length
  · have htc : min chunk.length (payload.length - (k - 4)) = chunk.length := by omega
    have hne : ¬ (k - 4 + chunk.length = payload.length) := by omega
    have hnlt : ¬ (payload.length < k - 4 + chunk.length) := by omega
    rw [htc, List.take_length, if_neg hne, if_neg hnlt]
    refine ⟨fun _ => ⟨_, rfl, ?_⟩, fun h => absurd h (by omega)⟩
    rw [RecvInv, if_neg (by omega)]
    refine ⟨rfl, ?_, by show k - 4 + chunk.length = k + chunk.length - 4; omega⟩
    show payload.take (k - 4) ++ chunk = payload.take (k + chunk.length - 4)
    have hc4 : chunk = (payload.drop (k - 4)).take chunk.length := by
      conv_lhs => rw [hchunk3]
      exact List.take_append_of_le_length (by rw [hrem]; omega)
    have hta : payload.take (k - 4 + chunk.length)
        = payload.take (k - 4) ++ (payload.drop (k - 4)).take chunk.length :=
      List.take_add payload (k - 4) chunk.length
    have hkk : k + chunk.length - 4 = k - 4 + chunk.length := by omega
    rw [hkk, hta, ← hc4]
  · have htc : min chunk.length (payload.length - (k - 4))
        = payload.length - (k - 4) := by omega
    have heq : k - 4 + (payload.length - (k - 4)) = payload.length := by omega
    rw [htc, heq, if_pos rfl]
    refine ⟨fun h => absurd h (by omega), fun _ => ?_⟩
    have hc4 : chunk.take (payload.length - (k - 4))
        = (payload.drop (k - 4)).take (payload.length - (k - 4)) := by
      conv_lhs => rw [hchunk3]
      rw [List.take_take]
      have hmin : min (payload.length - (k - 4)) chunk.length
          = payload.length - (k - 4) := by omega
      rw [hmin]
      exact List.take_append_of_le_length (by rw [hrem])
    have hta : payload.take (k - 4 + (payload.length - (k - 4)))
        = payload.take (k - 4) ++ (payload.drop (k - 4)).take (payload.length - (k - 4)) :=
      List.take_add payload (k - 4) (payload.length - (k - 4))
    rw [hc4, ← hta, heq, List.take_length]

theorem onData_step (payload rest chunk tail : List Nat)
    (hlen : payload.length < 4294967296) (k : Nat) (st : RecvState)
    (hk : k < 4 + payload.length) (hinv : RecvInv payload k st)
    (hchunk : chunk ++ tail = (encodeFrame payload ++ rest).drop k) :
    (k + chunk.length < 4 + payload.length →
      ∃ st2, onData st chunk = .pending st2 ∧ RecvInv payload (k + chunk.length) st2) ∧
    (4 + payload.length ≤ k + chunk.length →
      onData st chunk = .resolved payload) := by
  by_cases hk4 : k < 4
  · rw [RecvInv, if_pos hk4] at hinv
    subst hinv
    exact onData_stepA payload rest chunk tail hlen k hk4 hchunk
  · obtain ⟨lb, ml, mb, br⟩ := st
    rw [RecvInv, if_neg hk4] at hinv
    obtain ⟨h1, h2, h3⟩ := hinv
    replace h1 : ml = some payload.length := h1
    replace h2 : mb = payload.take (k - 4) := h2
    replace h3 : br = k - 4 := h3
    subst h1
    exact onData_stepB payload rest chunk tail k lb mb br (by omega) hk h2 h3 hchunk

theorem runRecv_resolves (payload rest : List Nat)
    (hlen : payload.length < 4294967296) :
    ∀ (chunks : List (List Nat)) (k : Nat) (st : RecvState),
      k < 4 + payload.length → RecvInv payload k st →
      chunks.flatten = (encodeFrame payload ++ rest).drop k →
      runRecv st chunks = .resolvedRun payload := by
  intro chunks
  induction chunks with
  | nil =>
    intro k st hk _ hjoin
    exfalso
    have h := congrArg List.length hjoin
    simp only [List.flatten_nil, List.length_nil, List.length_drop, List.length_append,
      encodeFrame_length] at h
    omega
  | cons c cs ih =>
    intro k st hk hinv hjoin
    rw [List.flatten_cons] at hjoin
    by_cases hcomp : k + c.length < 4 + payload.length
    · obtain ⟨st2, hstep, hinv2⟩ :=
        (onData_step payload rest c cs.flatten hlen k st hk hinv hjoin).1 hcomp
      have hjoin2 : cs.flatten = (encodeFrame payload ++ rest).drop (k + c.length) := by
        have h := congrArg (List.drop c.length) hjoin
        rw [List.drop_append_of_le_length (le_refl _), List.drop_length,
          List.nil_append, List.drop_drop] at h
        rw [h]
      simp only [runRecv, hstep]
      exact ih (k + c.length) st2 hcomp hinv2 hjoin2
    · have hres :=
        (onData_step payload rest c cs.flatten hlen k st hk hinv hjoin).2 (by omega)
      simp only [runRecv, hres]

/-- C2, amended.  The frame reader is chunking-invariant: for every
frame and every partition of its bytes into arbitrary chunks — with any
trailing bytes of a following frame allowed inside the final chunks —
one `_recvMsg` call resolves with exactly the frame's payload.  Bytes
past the end of the frame are *discarded* by this resolving read (they
are not carried over to the next frame, contrary to the original
claim; see the counterexample). -/
theorem c2_chunked_reader (payload rest : List Nat) (chunks : List (List Nat))
    (hlen : payload.length < 4294967296)
    (hjoin : chunks.flatten = encodeFrame payload ++ rest) :
    runRecv initRecv chunks = .resolvedRun payload := by
  apply runRecv_resolves payload rest hlen chunks 0 initRecv (by omega)
  · rw [RecvInv, if_pos (by omega)]
    simp [initRecv]
  · simpa using hjoin

/-- Witness for C2 at a concrete frame split into 1-byte chunks, with
one extra byte of a following message in the last chunk. -/
theorem c2_chunked_reader_witness :
    runRecv initRecv [[2], [0], [0], [0], [7], [9], [1]]
      = .resolvedRun [7, 9] :=
  c2_chunked_reader [7, 9] [1] [[2], [0], [0], [0], [7], [9], [1]]
    (by decide) (by decide)

theorem runRecv_pending (payload : List Nat)
    (hlen : payload.length < 4294967296) :
    ∀ (chunks : List (List Nat)) (k j : Nat) (st : RecvState),
      k + j < 4 + payload.length → RecvInv payload k st →
      chunks.flatten = ((encodeFrame payload).drop k).take j →
      ∃ st2, runRecv st chunks = .pending st2 ∧ RecvInv payload (k + j) st2 := by
  intro chunks
  induction chunks with
  | nil =>
    intro k j st hkj hinv hjoin
    have hj : j = 0 := by
      have h := congrArg List.length hjoin.symm
      simp only [List.flatten_nil, List.length_nil, List.length_take, List.length_drop,
        encodeFrame_length] at h
      omega
    subst hj
    exact ⟨st, rfl, by simpa using hinv⟩
  | cons c cs ih =>
    intro k j st hkj hinv hjoin
    rw [List.flatten_cons] at hjoin
    have hclen : c.length ≤ j := by
      have h := congrArg List.length hjoin
      simp only [List.length_append, List.length_take, List.length_drop,
        encodeFrame_length] at h
      omega
    have hc : c = ((encodeFrame payload).drop k).take c.length := by
      have h := congrArg (List.take c.length) hjoin
      rw [List.take_append_of_le_length (le_refl _), List.take_length,
        List.take_take] at h
      conv_lhs => rw [h]
      congr 1
      omega
    have hchunk : c ++ ((encodeFrame payload).drop k).drop c.length
        = (encodeFrame payload ++ []).drop k := by
      rw [List.append_nil]
      have h := List.take_append_drop c.length ((encodeFrame payload).drop k)
      rw [← hc] at h
      exact h
    obtain ⟨st2, hod, hinv2⟩ :=
      (onData_step payload [] c _ hlen k st (by omega) hinv hchunk).1 (by omega)
    have hjoin2 : cs.flatten = ((encodeFrame payload).drop (k + c.length)).take (j - c.length) := by
      have h := congrArg (List.drop c.length) hjoin
      rw [List.drop_append_of_le_length (le_refl _), List.drop_length,
        List.nil_append] at h
      rw [h, List.drop_take, List.drop_drop]
    obtain ⟨st3, hrun, hinv3⟩ := ih (k + c.length) (j - c.length) st2 (by omega) hinv2 hjoin2
    refine ⟨st3, ?_, ?_⟩
    · simp only [runRecv, hod]
      exact hrun
    · have heq : k + c.length + (j - c.length) = k + j := by omega
      rw [heq] at hinv3
      exact hinv3

/-- C9.  End-of-stream semantics of the frame reader: (a) a clean close
with no length prefix read and zero bytes received resolves `null`
(both via `'end'` and via a clean `'close'`); (b) a close after one to
three length bytes is a hard read error; (c) a close after the length
with fewer than the declared number of body bytes is a hard read
error. -/
theorem c9_close_semantics (payload : List Nat) (chunks : List (List Nat)) (k : Nat)
    (hlen : payload.length < 4294967296) :
    (chunks.flatten = [] →
      ∃ st, runRecv initRecv chunks = .pending st ∧
        onEndF st = .ok none ∧ onCloseF false st = .ok none) ∧
    (1 ≤ k → k ≤ 3 → chunks.flatten = (encodeFrame payload).take k →
      ∃ st, runRecv initRecv chunks = .pending st ∧
        onEndF st = .error "Connection ended while reading message length") ∧
    (4 ≤ k → k < 4 + payload.length → chunks.flatten = (encodeFrame payload).take k →
      ∃ st, runRecv initRecv chunks = .pending st ∧
        onEndF st = .error "Connection ended while reading message body") := by
  have hinv0 : RecvInv payload 0 initRecv := by
    rw [RecvInv, if_pos (by omega)]
    simp [initRecv]
  refine ⟨?_, ?_, ?_⟩
  · intro hjoin
    obtain ⟨st, hrun, hinv⟩ :=
      runRecv_pending payload hlen chunks 0 0 initRecv (by omega) hinv0
        (by simpa using hjoin)
    rw [RecvInv, if_pos (by omega)] at hinv
    subst hinv
    exact ⟨_, hrun, by simp [onEndF], by simp [onCloseF, onEndF]⟩
  · intro hk1 hk3 hjoin
    obtain ⟨st, hrun, hinv⟩ :=
      runRecv_pending payload hlen chunks 0 k initRecv (by omega) hinv0
        (by simpa using hjoin)
    simp only [Nat.zero_add] at hinv
    rw [RecvInv, if_pos (by omega)] at hinv
    subst hinv
    refine ⟨_, hrun, ?_⟩
    have hne : (encodeFrame payload).take k ≠ [] := by
      intro h
      have h2 := congrArg List.length h
      simp only [List.length_take, encodeFrame_length, List.length_nil] at h2
      omega
    simp only [onEndF, if_neg hne]
  · intro hk4 hklt hjoin
    obtain ⟨st, hrun, hinv⟩ :=
      runRecv_pending payload hlen chunks 0 k initRecv (by omega) hinv0
        (by simpa using hjoin)
    simp only [Nat.zero_add] at hinv
    rw [RecvInv, if_neg (by omega)] at hinv
    obtain ⟨lb, ml, mb, br⟩ := st
    obtain ⟨h1, h2, h3⟩ := hinv
    replace h1 : ml = some payload.length := h1
    replace h3 : br = k - 4 := h3
    subst h1 h3
    refine ⟨_, hrun, ?_⟩
    simp only [onEndF, if_pos (by omega : k - 4 < payload.length)]

/-- Witness for C9: the three close scenarios at concrete inputs
(no bytes; two length bytes; a complete length prefix declaring one
body byte that never arrives). -/
theorem c9_close_semantics_witness :
    (∃ st, runRecv initRecv ([] : List (List Nat)) = .pending st ∧
      onEndF st = .ok none ∧ onCloseF false st = .ok none) ∧
    (∃ st, runRecv initRecv [[1], [0]] = .pending st ∧
      onEndF st = .error "Connection ended while reading message length") ∧
    (∃ st, runRecv initRecv [[1, 0, 0, 0]] = .pending st ∧
      onEndF st = .error "Connection ended while reading message body") :=
  ⟨(c9_close_semantics [7] [] 0 (by decide)).1 (by decide),
   (c9_close_semantics [7] [[1], [0]] 2 (by decide)).2.1 (by decide) (by decide) (by decide),
   (c9_close_semantics [7] [[1, 0, 0, 0]] 4 (by decide)).2.2 (by decide) (by decide) (by decide)⟩

/-! ## Session validity

`Session` and `Session.valid` (`src/base.ts:26-40`).  JavaScript
numbers taking part in the exact comparison (`Date.now()` milliseconds,
TTL seconds, the parsed expiry offset) are modelled as `ℚ`;
`Date.now()` and the environment-sourced offset become parameters. -/

structure Session where
  sessionToken : String
  refreshToken : String
  sessionTokenTtl : ℚ
  refreshTokenTtl : ℚ
  sessionStarted : ℚ

/-- `Session.valid()`: the session age in seconds,
`(Date.now() - sessionStarted) / 1000`, must not exceed
`sessionTokenTtl - expiryOffset` (offset defaulting to 10, from
`SESSION_EXPIRY_OFFSET_SEC`).  The comparison in the source is `<=`. -/
def Session.valid (s : Session) (now expiryOffset : ℚ) : Bool :=
  decide ((now - s.sessionStarted) / 1000 ≤ s.sessionTokenTtl - expiryOffset)

/-- C3, counterexample.  The claim predicts `valid()` is `false` at an
age of exactly 50.0 s with ttl 60 and offset 10; the source compares
with `<=`, so at exactly `50.0` (age `50000` ms from `sessionStarted
= 0`) it still returns `true`. -/
theorem c3_counterexample :
    ¬ Session.valid ⟨"t", "r", 60, 600, 0⟩ 50000 10 = false := by
  norm_num [Session.valid]

/-- C3, amended.  `valid()` is true immediately after creation
(whenever the offset does not exceed the ttl), is true at every age up
to and *including* `(ttl - offset)` seconds, and is false at every age
strictly beyond; with ttl 60 and offset 10 it is true at 49.9 s and at
exactly 50.0 s, and false at any later time. -/
theorem c3_session_valid (s : Session) (off now : ℚ) :
    (s.valid now off = true ↔
      now - s.sessionStarted ≤ (s.sessionTokenTtl - off) * 1000) ∧
    (off ≤ s.sessionTokenTtl → s.valid s.sessionStarted off = true) ∧
    Session.valid ⟨"t", "r", 60, 600, 0⟩ 49900 10 = true ∧
    Session.valid ⟨"t", "r", 60, 600, 0⟩ 50000 10 = true ∧
    (∀ t : ℚ, 50000 < t → Session.valid ⟨"t", "r", 60, 600, 0⟩ t 10 = false) := by
  refine ⟨?_, ?_, by norm_num [Session.valid], by norm_num [Session.valid], ?_⟩
  · simp only [Session.valid, decide_eq_true_eq]
    exact div_le_iff₀ (by norm_num)
  · intro h
    simp only [Session.valid, decide_eq_true_eq, sub_self, zero_div]
    linarith
  · intro t ht
    simp only [Session.valid, decide_eq_false_iff_not, not_le]
    rw [lt_div_iff₀ (by norm_num)]
    norm_num
    linarith

/-- Witness for C3 (amended) at a concrete session: valid at creation,
invalid 50.001 s after start. -/
theorem c3_session_valid_witness :
    Session.valid ⟨"t", "r", 60, 600, 0⟩ 0 10 = true ∧
    Session.valid ⟨"t", "r", 60, 600, 0⟩ 50001 10 = false :=
  ⟨(c3_session_valid ⟨"t", "r", 60, 600, 0⟩ 10 0).2.1 (by norm_num),
   (c3_session_valid ⟨"t", "r", 60, 600, 0⟩ 10 0).2.2.2.2 50001 (by norm_num)⟩

/-! ## Retry backoff

`baseDelay * Math.pow(2, retryCount) * (0.5 + Math.random())` — the
inter-attempt delay of `_query` (`src/base.ts:867,899`) and of
`ParallelQuery.execute` (`src/parallel.ts:75`) — in exact arithmetic,
with the `Math.random()` draw as a parameter. -/

def backoffDelay (baseDelayMs : ℚ) (i : Nat) (r : ℚ) : ℚ :=
  baseDelayMs * 2 ^ i * (1 / 2 + r)

/-- C10, counterexample.  The claim's own general interval gives
`[1000·2²·0.5, 1000·2²·1.5) = [2000, 6000)` for attempt 2, yet the
claim asserts the delay lies in `[4000, 6000)`: at the random draw
`r = 0 ∈ [0,1)` the computed delay is `2000`, outside `[4000, 6000)`. -/
theorem c10_counterexample :
    backoffDelay 1000 2 0 = 2000 ∧ ¬ (4000 ≤ backoffDelay 1000 2 0) := by
  norm_num [backoffDelay]

/-- C10, amended.  For every 0-indexed attempt `i` and every random
draw `r ∈ [0,1)`, the delay `baseDelayMs · 2^i · (0.5 + r)` lies in
`[baseDelayMs·2^i·0.5, baseDelayMs·2^i·1.5)`; with `baseDelay = 1000`,
attempt 2's delay lies in `[2000, 6000)` (not `[4000, 6000)`). -/
theorem c10_backoff (base : ℚ) (i : Nat) (r : ℚ)
    (hb : 0 < base) (h0 : 0 ≤ r) (h1 : r < 1) :
    (base * 2 ^ i * (1 / 2) ≤ backoffDelay base i r ∧
      backoffDelay base i r < base * 2 ^ i * (3 / 2)) ∧
    (2000 ≤ backoffDelay 1000 2 r ∧ backoffDelay 1000 2 r < 6000) := by
  have hp : (0 : ℚ) < base * 2 ^ i := by positivity
  refine ⟨⟨?_, ?_⟩, ?_, ?_⟩ <;> simp only [backoffDelay] <;> nlinarith

/-- Witness for C10 at `base = 1000`, `i = 2`, `r = 1/2`. -/
theorem c10_backoff_witness :
    (1000 * 2 ^ 2 * (1 / 2 : ℚ) ≤ backoffDelay 1000 2 (1 / 2) ∧
      backoffDelay 1000 2 (1 / 2) < 1000 * 2 ^ 2 * (3 / 2)) ∧
    (2000 ≤ backoffDelay 1000 2 (1 / 2) ∧ backoffDelay 1000 2 (1 / 2) < 6000) :=
  c10_backoff 1000 2 (1 / 2) (by norm_num) (by norm_num) (by norm_num)

/-! ## Connection pool

`ConnectionPool` (`src/base.ts:54-181`): the per-endpoint-key list of
`PooledSocket` entries and the three mutators used by the query engine.
Sockets are identified by numeric ids; destroying a socket is recorded
as the returned `Option Nat`. -/

structure PooledSocket where
  sock : Nat
  lastUsed : Nat
  busy : Bool
  deriving Repr, DecidableEq

/-- `maxPoolSize` (`src/base.ts:57`), not configurable. -/
def maxPoolSize : Nat := 5

/-- `addConnection` (`src/base.ts:83-96`): push the socket as a fresh
non-busy entry if the per-key list is below capacity; otherwise destroy
the offered socket itself, leaving the list untouched. -/
def addConnection (conns : List PooledSocket) (sock now : Nat) :
    List PooledSocket × Option Nat :=
  if conns.length < maxPoolSize then
    (conns ++ [⟨sock, now, false⟩], none)
  else (conns, some sock)

/-- `markBusy` (`src/base.ts:98-105`): update the first entry holding
this socket (`find` returns the first match). -/
def markBusy : List PooledSocket → Nat → Bool → Nat → List PooledSocket
  | [], _, _, _ => []
  | c :: cs, sock, b, now =>
    if c.sock = sock then ⟨c.sock, now, b⟩ :: cs
    else c :: markBusy cs sock b now

/-- `removeConnection` (`src/base.ts:107-125`): splice out the first
entry holding this socket. -/
def removeConnection : List PooledSocket → Nat → List PooledSocket
  | [], _ => []
  | c :: cs, sock => if c.sock = sock then cs else c :: removeConnection cs sock

inductive PoolOp where
  | add (sock now : Nat)
  | mark (sock : Nat) (b : Bool) (now : Nat)
  | remove (sock : Nat)

def applyOp (conns : List PooledSocket) : PoolOp → List PooledSocket
  | .add sock now => (addConnection conns sock now).1
  | .mark sock b now => markBusy conns sock b now
  | .remove sock => removeConnection conns sock

def applyOps : List PooledSocket → List PoolOp → List PooledSocket
  | conns, [] => conns
  | conns, op :: ops => applyOps (applyOp conns op) ops

theorem markBusy_length (conns : List PooledSocket) (sock : Nat) (b : Bool) (now : Nat) :
    (markBusy conns sock b now).length = conns.length := by
  induction conns with
  | nil => rfl
  | cons c cs ih =>
    rw [markBusy]
    by_cases h : c.sock = sock
    · rw [if_pos h]
      rfl
    · rw [if_neg h]
      simp [ih]

theorem removeConnection_length (conns : List PooledSocket) (sock : Nat) :
    (removeConnection conns sock).length ≤ conns.length := by
  induction conns with
  | nil => exact le_refl _
  | cons c cs ih =>
    rw [removeConnection]
    by_cases h : c.sock = sock
    · rw [if_pos h]
      simp
    · rw [if_neg h]
      simp only [List.length_cons]
      omega

theorem applyOps_bounded (ops : List PoolOp) :
    ∀ conns : List PooledSocket, conns.length ≤ maxPoolSize →
      (applyOps conns ops).length ≤ maxPoolSize := by
  induction ops with
  | nil => intro conns h; exact h
  | cons op ops ih =>
    intro conns h
    rw [applyOps]
    apply ih
    match op with
    | .add sock now =>
      show ((addConnection conns sock now).1).length ≤ maxPoolSize
      rw [addConnection]
      by_cases hlt : conns.length < maxPoolSize
      · rw [if_pos hlt]
        simp only [List.length_append, List.length_cons, List.length_nil]
        omega
      · rw [if_neg hlt]
        exact h
    | .mark sock b now =>
      show (markBusy conns sock b now).length ≤ maxPoolSize
      rw [markBusy_length]
      exact h
    | .remove sock =>
      show (removeConnection conns sock).length ≤ maxPoolSize
      exact le_trans (removeConnection_length conns sock) h

/-- C8.  Starting from an empty per-key list, no sequence of
`add`/`markBusy`/`remove` operations ever leaves more than
`maxPoolSize = 5` entries; and offering a socket to a full list
destroys the offered socket itself — the list (hence every existing
pooled entry) is returned unchanged and nothing is queued. -/
theorem c8_pool_bounded (ops : List PoolOp) (conns : List PooledSocket)
    (sock now : Nat) :
    (applyOps [] ops).length ≤ maxPoolSize ∧
    (maxPoolSize ≤ conns.length →
      addConnection conns sock now = (conns, some sock)) := by
  refine ⟨applyOps_bounded ops [] (by simp [maxPoolSize]), fun h => ?_⟩
  rw [addConnection, if_neg (by omega)]

/-- Witness for C8: six offers to one key keep the list at five
entries, and the sixth offer to the already-full list returns the list
unchanged and destroys socket 6. -/
theorem c8_pool_bounded_witness :
    (applyOps [] [PoolOp.add 1 0, PoolOp.add 2 0, PoolOp.add 3 0, PoolOp.add 4 0,
        PoolOp.add 5 0, PoolOp.add 6 0, PoolOp.mark 3 true 7,
        PoolOp.remove 2]).length ≤ maxPoolSize ∧
    addConnection [⟨1, 0, false⟩, ⟨2, 0, false⟩, ⟨3, 0, false⟩, ⟨4, 0, false⟩,
        ⟨5, 0, false⟩] 6 9
      = ([⟨1, 0, false⟩, ⟨2, 0, false⟩, ⟨3, 0, false⟩, ⟨4, 0, false⟩,
          ⟨5, 0, false⟩], some 6) :=
  ⟨(c8_pool_bounded [PoolOp.add 1 0, PoolOp.add 2 0, PoolOp.add 3 0, PoolOp.add 4 0,
      PoolOp.add 5 0, PoolOp.add 6 0, PoolOp.mark 3 true 7, PoolOp.remove 2]
      [] 0 0).1,
   (c8_pool_bounded [] [⟨1, 0, false⟩, ⟨2, 0, false⟩, ⟨3, 0, false⟩, ⟨4, 0, false⟩,
      ⟨5, 0, false⟩] 6 9).2 (by decide)⟩

/-! ## JSON values

A JSON-like value type for decoded response bodies, used by the
liveness probe check and the retry loop. -/

inductive JValue where
  | null
  | bool (b : Bool)
  | num (n : Int)
  | str (s : String)
  | arr (elems : List JValue)
  | obj (fields : List (String × JValue))

/-- `v?.key` on a decoded JSON value: a field lookup that yields
`none` (JavaScript `undefined`) on non-objects and missing keys. -/
def JValue.getField : JValue → String → Option JValue
  | .obj fields, key => fields.lookup key
  | _, _ => none

/-! ## The query retry loop

`BaseClient._query` (`src/base.ts:810-923`): a `while` loop over
`retryCount = 0..maxRetries` (`maxRetries = 3`).  What the environment
does during one attempt — connect result, send result, receive result,
JSON parse result — is one `AttemptEvent`; the loop consumes one event
per attempt.  The outer `catch` retries on *every* thrown error while
`retryCount < maxRetries` (socket disposal is conditioned on
connection-class messages, but the retry decision is not). -/

inductive AttemptEvent where
  /-- `connect`/`ensureAuthenticated` rejected at the top of the attempt. -/
  | throwConnect (msg : String)
  /-- `_sendMsg` rejected. -/
  | sendThrow (msg : String)
  /-- `_sendMsg` resolved `false`. -/
  | sendFalse
  /-- `_recvMsg` rejected. -/
  | recvThrow (msg : String)
  /-- `_recvMsg` resolved `null` (peer closed without error). -/
  | recvNull
  /-- A frame arrived and its decoded command text was empty. -/
  | recvEmpty
  /-- A frame arrived and `JSON.parse` succeeded. -/
  | recvParsed (resp : JValue) (blobs : List (List Nat))
  /-- A frame arrived but `JSON.parse` threw. -/
  | parseFail (msg : String)

inductive QueryResult where
  | ok (resp : Option JValue) (blobs : List (List Nat))
  | raise (msg : String)

/-- The `_query` retry loop: result together with the number of
attempts consumed.  Mirrors `src/base.ts:817-920`: a parsed response
returns; an empty body returns `[null, []]`; a `null` frame retries
while attempts remain and then returns `[null, []]`; a send that
resolves `false` returns `[null, []]`; every *thrown* error — including
a JSON parse error — retries (with backoff) while
`retryCount < maxRetries` and is re-raised only on the last attempt. -/
def queryLoop : List AttemptEvent → Nat → QueryResult × Nat
  | [], _ => (.raise "no attempt event", 0)
  | e :: rest, retryCount =>
    match e with
    | .recvParsed resp blobs => (.ok (some resp) blobs, 1)
    | .recvEmpty => (.ok none [], 1)
    | .sendFalse => (.ok none [], 1)
    | .recvNull =>
      if retryCount < 3 then
        let r := queryLoop rest (retryCount + 1)
        (r.1, r.2 + 1)
      else (.ok none [], 1)
    | .throwConnect m | .sendThrow m | .recvThrow m | .parseFail m =>
      if retryCount < 3 then
        let r := queryLoop rest (retryCount + 1)
        (r.1, r.2 + 1)
      else (.raise m, 1)

/-- C4, counterexample.  An unparseable response body on the first
attempt is *not* surfaced without retry: the loop retries, and when the
second attempt parses, the query succeeds after 2 attempts — whereas
the claim predicts the parse error is raised after exactly 1 attempt. -/
theorem c4_counterexample :
    queryLoop [.parseFail "Unexpected token", .recvParsed .null []] 0
        = (.ok (some .null) [], 2) ∧
    ¬ queryLoop [.parseFail "Unexpected token", .recvParsed .null []] 0
        = (.raise "Unexpected token", 1) :=
  ⟨rfl, fun h => absurd (congrArg Prod.snd h) (by decide)⟩

theorem queryLoop_parseFail_shift (m : String) :
    ∀ (k r : Nat) (rest : List AttemptEvent), r + k ≤ 3 →
      queryLoop (List.replicate k (.parseFail m) ++ rest) r
        = ((queryLoop rest (r + k)).1, (queryLoop rest (r + k)).2 + k) := by
  intro k
  induction k with
  | zero => intro r rest _; simp
  | succ k ih =>
    intro r rest hr
    rw [List.replicate_succ, List.cons_append, queryLoop]
    rw [if_pos (by omega)]
    rw [ih (r + 1) rest (by omega)]
    have he : r + 1 + k = r + (k + 1) := by omega
    rw [he]
    simp [Nat.add_assoc]

/-- C4, amended.  A present-but-unparseable response body is treated
exactly like a transport failure by the retry loop: it is retried (with
backoff) while `retryCount < maxRetries = 3`, and only after all
`maxRetries + 1 = 4` attempts fail to parse is the parse error
re-raised to the caller; a later attempt that parses turns the call
into a success. -/
theorem c4_parse_failure_retried (m : String) (resp : JValue)
    (blobs : List (List Nat)) (k : Nat) (hk : k ≤ 3) :
    queryLoop (List.replicate 4 (.parseFail m)) 0 = (.raise m, 4) ∧
    queryLoop (List.replicate k (.parseFail m) ++ [.recvParsed resp blobs]) 0
      = (.ok (some resp) blobs, k + 1) := by
  constructor
  · have h : (List.replicate 4 (AttemptEvent.parseFail m))
        = List.replicate 3 (.parseFail m) ++ [.parseFail m] := rfl
    rw [h, queryLoop_parseFail_shift m 3 0 [.parseFail m] (by omega)]
    rfl
  · rw [queryLoop_parseFail_shift m k 0 [.recvParsed resp blobs] (by omega)]
    simp only [Nat.zero_add, queryLoop]
    rw [Nat.add_comm]

/-- Witness for C4 (amended): two parse failures followed by a parsed
response succeed on the third attempt; four parse failures raise. -/
theorem c4_parse_failure_retried_witness :
    queryLoop (List.replicate 4 (.parseFail "bad json")) 0 = (.raise "bad json", 4) ∧
    queryLoop (List.replicate 2 (.parseFail "bad json") ++ [.recvParsed .null []]) 0
      = (.ok (some .null) [], 2 + 1) :=
  c4_parse_failure_retried "bad json" .null [] 2 (by omega)

/-! ## The message cache of `_query`

`src/base.ts:827-839`: the request frame is cached in `messageCache`
under the key `` `${queryStr}-${sessionToken || ''}` `` — a function of
the command-JSON string and the current session token only.  On a cache
hit the cached buffer is sent as-is; the attempt's `blobArray` is never
consulted.  The JSON string and token are byte lists here, `45` being
the `'-'` separator; the frame built on a miss is the codec encoding of
`(queryStr, token, blobs)`. -/

def cacheKey (queryStr token : List Nat) : List Nat :=
  queryStr ++ 45 :: token

def encodeStep (cache : List (List Nat × List Nat)) (queryStr token : List Nat)
    (blobs : List (List Nat)) : List Nat × List (List Nat × List Nat) :=
  match cache.lookup (cacheKey queryStr token) with
  | some buf => (buf, cache)
  | none =>
    ((qmEncode queryStr token blobs),
     (cacheKey queryStr token, qmEncode queryStr token blobs) :: cache)

/-- C6.  The frame cache is keyed only by the `(queryStr, token)` pair:
when a first `_query` call misses the cache and encodes its frame from
`(queryStr, token, blobs₁)`, a second call with the same command JSON
and the same session token gets the byte-identical cached frame back —
whatever its own `blobs₂` are — and leaves the cache unchanged, so the
second call's blobs are never encoded or transmitted. -/
theorem c6_message_cache (cache : List (List Nat × List Nat)) (q t : List Nat)
    (b1 b2 : List (List Nat))
    (hmiss : cache.lookup (cacheKey q t) = none) :
    (encodeStep cache q t b1).1 = qmEncode q t b1 ∧
    encodeStep (encodeStep cache q t b1).2 q t b2
      = ((encodeStep cache q t b1).1, (encodeStep cache q t b1).2) := by
  simp [encodeStep, hmiss, List.lookup]

/-- Witness for C6: a second call with different blobs receives the
first call's frame. -/
theorem c6_message_cache_witness :
    (encodeStep [] [104] [116] [[1]]).1 = qmEncode [104] [116] [[1]] ∧
    encodeStep (encodeStep [] [104] [116] [[1]]).2 [104] [116] [[2, 2]]
      = ((encodeStep [] [104] [116] [[1]]).1, (encodeStep [] [104] [116] [[1]]).2) :=
  c6_message_cache [] [104] [116] [[1]] [[2, 2]] rfl

/-! ## Connection validation

`BaseClient.validateConnection` (`src/base.ts:1136-1201`): basic socket
state checks; for TLS sockets (when `useSsl`) a check that the stream
is `encrypted` *and* `authorized`; then a `Ping` liveness probe whose
reply must be `null`, an empty body, or a JSON array whose first
element has `Ping.status === 0`. -/

structure SockState where
  writable : Bool
  destroyed : Bool
  connecting : Bool
  pending : Bool
  isTls : Bool
  encrypted : Bool
  authorized : Bool

/-- What the probe exchange yielded. -/
inductive ProbeResult where
  /-- `_sendMsg` or `_recvMsg` rejected. -/
  | probeThrow
  /-- `_recvMsg` resolved `null`. -/
  | recvNull
  /-- A frame arrived with an empty command text. -/
  | emptyJson
  /-- `JSON.parse` threw on the body. -/
  | parseThrow
  /-- `JSON.parse` produced this value. -/
  | parsed (v : JValue)

/-- `Array.isArray(pingResponse) && pingResponse[0]?.Ping?.status === 0`. -/
def pingOk (v : JValue) : Bool :=
  match v with
  | .arr (x :: _) =>
    match x.getField "Ping" with
    | some p =>
      match p.getField "status" with
      | some (.num 0) => true
      | _ => false
    | none => false
  | _ => false

def validateConnection (useSsl : Bool) (s : SockState) (p : ProbeResult) : Bool :=
  if !s.writable || s.destroyed || s.connecting || s.pending then false
  else if useSsl && s.isTls && (!s.encrypted || !s.authorized) then false
  else
    match p with
    | .probeThrow => false
    | .parseThrow => false
    | .recvNull => true
    | .emptyJson => true
    | .parsed v => pingOk v

/-- A well-formed zero-status `Ping` reply. -/
def goodPingReply : JValue :=
  .arr [.obj [("Ping", .obj [("status", .num 0), ("info", .str "ok")])]]

/-- C7, counterexample.  A live TLS pooled socket whose stream reports
itself encrypted, with a well-formed zero-status probe reply, is *not*
handed back when the stream is unauthorized (`socket.authorized =
false`, the usual state under `rejectUnauthorized: false` with a
self-signed certificate): `validateConnection` returns `false`, where
the claim predicts `true` under those two conditions alone. -/
theorem c7_counterexample :
    validateConnection true
      ⟨true, false, false, false, true, true, false⟩
      (.parsed goodPingReply) = false := rfl

set_option maxHeartbeats 1600000 in
/-- C7, amended.  `validateConnection` returns `true` iff the basic
socket-state checks pass (writable, not destroyed, not connecting, not
pending), the TLS stream — when `useSsl` and the socket is a TLS
socket — reports itself encrypted *and* authorized, and the liveness
probe yields a well-formed zero-status reply or a valid empty reply
(`null` frame or empty body). -/
theorem c7_validate_connection (useSsl : Bool) (s : SockState) (p : ProbeResult) :
    validateConnection useSsl s p = true ↔
      (s.writable = true ∧ s.destroyed = false ∧ s.connecting = false ∧
       s.pending = false ∧
       (useSsl = true → s.isTls = true → s.encrypted = true ∧ s.authorized = true) ∧
       (p = .recvNull ∨ p = .emptyJson ∨ ∃ v, p = .parsed v ∧ pingOk v = true)) := by
  obtain ⟨w, d, c, pe, tls, enc, auth⟩ := s
  cases w <;> cases d <;> cases c <;> cases pe <;>
    cases useSsl <;> cases tls <;> cases enc <;> cases auth <;>
    cases p <;>
    simp [validateConnection]

/-- Witness for C7 (amended): a plaintext live socket with a `null`
probe reply is handed back. -/
theorem c7_validate_connection_witness :
    validateConnection false ⟨true, false, false, false, false, false, false⟩
      .recvNull = true :=
  (c7_validate_connection false ⟨true, false, false, false, false, false, false⟩
      .recvNull).mpr
    ⟨rfl, rfl, rfl, rfl, fun h => Bool.noConfusion h, Or.inl rfl⟩

/-! ## The parallel batch layer

`ParallelQuerySet.execute` (`src/parallel.ts:123-187`).  Each
`ParallelQuery.execute` in a batch either produces a response with
blobs or throws with a message; that per-query outcome is a `QOutcome`.
The set-level loop partitions the queries into batches of
`maxBatchSize`, collects successful responses/blobs in submission
order and failure messages, and afterwards (`parallel.ts:175-186`)
throws one aggregated error exactly when there were failures and no
successes, joining the failure messages with `"; "`. -/

inductive QOutcome where
  | ok (resp : JValue) (blobs : List (List Nat))
  | err (msg : String)

def QOutcome.isErr : QOutcome → Bool
  | .ok _ _ => false
  | .err _ => true

/-- Collecting one settled query: a success pushes onto `responses`
and `allBlobs`, a failure pushes its message onto `batchErrors`. -/
def stepAcc (acc : List JValue × List (List (List Nat)) × List String)
    (o : QOutcome) : List JValue × List (List (List Nat)) × List String :=
  match o with
  | .ok r b => (acc.1 ++ [r], acc.2.1 ++ [b], acc.2.2)
  | .err m => (acc.1, acc.2.1, acc.2.2 ++ [m])

/-- One batch: every query settles; successes and failures are
collected (`results.forEach` preserves submission order). -/
def processBatch (acc : List JValue × List (List (List Nat)) × List String)
    (batch : List QOutcome) : List JValue × List (List (List Nat)) × List String :=
  batch.foldl stepAcc acc

/-- `this.queries.slice(i, i + this.maxBatchSize)` over the whole list:
partition into consecutive batches (fuel-driven formulation). -/
def toBatchesAux : Nat → Nat → List QOutcome → List (List QOutcome)
  | 0, _, _ => []
  | _, _, [] => []
  | fuel + 1, size, c :: cs =>
    (c :: cs).take size :: toBatchesAux fuel size ((c :: cs).drop size)

def toBatches (size : Nat) (l : List QOutcome) : List (List QOutcome) :=
  toBatchesAux l.length size l

/-- `batchErrors.map(e => e.message).join('; ')`. -/
def joinSemicolon : List String → String
  | [] => ""
  | [m] => m
  | m :: ms => m ++ "; " ++ joinSemicolon ms

/-- `ParallelQuerySet.execute`, outcome level: run the batches, then
raise the aggregated error iff there were failures and zero successes
(`parallel.ts:181-184`), else return the successes. -/
def executeSet (maxBatchSize : Nat) (outcomes : List QOutcome) :
    Except String (List JValue × List (List (List Nat))) :=
  let acc := (toBatches maxBatchSize outcomes).foldl processBatch ([], [], [])
  if 0 < acc.2.2.length ∧ acc.1.length = 0 then
    .error ("Query execution failed: " ++ joinSemicolon acc.2.2)
  else .ok (acc.1, acc.2.1)

def okResponses (l : List QOutcome) : List JValue :=
  l.filterMap fun o => match o with | .ok r _ => some r | .err _ => none

def okBlobs (l : List QOutcome) : List (List (List Nat)) :=
  l.filterMap fun o => match o with | .ok _ b => some b | .err _ => none

def errMsgs (l : List QOutcome) : List String :=
  l.filterMap fun o => match o with | .err m => some m | .ok _ _ => none

theorem toBatchesAux_flatten (size : Nat) (hs : 1 ≤ size) :
    ∀ (fuel : Nat) (l : List QOutcome), l.length ≤ fuel →
      (toBatchesAux fuel size l).flatten = l := by
  intro fuel
  induction fuel with
  | zero =>
    intro l hl
    have : l = [] := List.eq_nil_of_length_eq_zero (by omega)
    subst this
    rfl
  | succ fuel ih =>
    intro l hl
    match l with
    | [] => rfl
    | c :: cs =>
      rw [toBatchesAux, List.flatten_cons]
      rw [ih ((c :: cs).drop size) (by simp only [List.length_drop]; simp at hl ⊢; omega)]
      exact List.take_append_drop size (c :: cs)

theorem foldl_stepAcc (l : List QOutcome) :
    ∀ acc : List JValue × List (List (List Nat)) × List String,
      l.foldl stepAcc acc
        = (acc.1 ++ okResponses l, acc.2.1 ++ okBlobs l, acc.2.2 ++ errMsgs l) := by
  induction l with
  | nil => intro acc; simp [okResponses, okBlobs, errMsgs]
  | cons o l ih =>
    intro acc
    rw [List.foldl_cons, ih]
    match o with
    | .ok r b =>
      simp [stepAcc, okResponses, okBlobs, errMsgs, List.filterMap_cons]
    | .err m =>
      simp [stepAcc, okResponses, okBlobs, errMsgs, List.filterMap_cons]

theorem foldl_processBatch (batches : List (List QOutcome)) :
    ∀ acc, batches.foldl processBatch acc = batches.flatten.foldl stepAcc acc := by
  induction batches with
  | nil => intro acc; rfl
  | cons b bs ih =>
    intro acc
    rw [List.foldl_cons, List.flatten_cons, List.foldl_append, ih]
    rfl

theorem executeSet_char (maxB : Nat) (hB : 1 ≤ maxB) (l : List QOutcome) :
    executeSet maxB l
      = if 0 < (errMsgs l).length ∧ (okResponses l).length = 0 then
          .error ("Query execution failed: " ++ joinSemicolon (errMsgs l))
        else .ok (okResponses l, okBlobs l) := by
  rw [executeSet]
  rw [foldl_processBatch, toBatches, toBatchesAux_flatten maxB hB l.length l (le_refl _),
    foldl_stepAcc]
  rfl

theorem mem_joinSemicolon_infix (m : String) :
    ∀ ms : List String, m ∈ ms → m.data <:+: (joinSemicolon ms).data := by
  intro ms
  induction ms with
  | nil => intro h; cases h
  | cons a ms ih =>
    intro h
    match ms with
    | [] =>
      have : m = a := by
        rcases List.mem_cons.mp h with h1 | h1
        · exact h1
        · cases h1
      subst this
      exact List.infix_refl _
    | b :: ms2 =>
      show m.data <:+: (a ++ "; " ++ joinSemicolon (b :: ms2)).data
      rcases List.mem_cons.mp h with h1 | h1
      · subst h1
        refine ⟨[], ("; " ++ joinSemicolon (b :: ms2)).data, ?_⟩
        simp [String.data_append]
      · obtain ⟨s, t, hst⟩ := ih h1
        refine ⟨(a ++ "; ").data ++ s, t, ?_⟩
        simp only [String.data_append]
        rw [← hst]
        simp [List.append_assoc]

theorem okResponses_eq_nil_iff (l : List QOutcome) :
    okResponses l = [] ↔ ∀ o ∈ l, o.isErr = true := by
  rw [okResponses, List.filterMap_eq_nil_iff]
  constructor
  · intro h o ho
    have := h o ho
    match o with
    | .ok r b => simp at this
    | .err m => rfl
  · intro h o ho
    have := h o ho
    match o with
    | .ok r b => simp [QOutcome.isErr] at this
    | .err m => rfl

theorem errMsgs_ne_nil_iff (l : List QOutcome) :
    errMsgs l ≠ [] ↔ ∃ o ∈ l, o.isErr = true := by
  rw [errMsgs, Ne, List.filterMap_eq_nil_iff]
  constructor
  · intro h
    by_contra hc
    push_neg at hc
    apply h
    intro o ho
    have := hc o ho
    match o with
    | .ok r b => rfl
    | .err m => simp [QOutcome.isErr] at this
  · rintro ⟨o, ho, herr⟩ h
    have := h o ho
    match o with
    | .ok r b => simp [QOutcome.isErr] at herr
    | .err m => simp at this

/-- C5.  `ParallelQuerySet.execute` raises an error iff every query
failed and at least one query was present (zero successes, one or more
failures); the single raised error's message contains (as a substring)
the message of every underlying failure; and when at least one query
succeeded, no exception is raised and the successes (responses and
blobs, in submission order) are returned. -/
theorem c5_parallel_set_failure_policy (maxB : Nat) (outcomes : List QOutcome)
    (hB : 1 ≤ maxB) :
    ((∃ e, executeSet maxB outcomes = .error e) ↔
      (outcomes ≠ [] ∧ ∀ o ∈ outcomes, o.isErr = true)) ∧
    (∀ e, executeSet maxB outcomes = .error e →
      ∀ m, QOutcome.err m ∈ outcomes → m.data <:+: e.data) ∧
    (∀ rs bs, executeSet maxB outcomes = .ok (rs, bs) →
      rs = okResponses outcomes ∧ bs = okBlobs outcomes) := by
  rw [executeSet_char maxB hB outcomes]
  by_cases hcond : 0 < (errMsgs outcomes).length ∧ (okResponses outcomes).length = 0
  · rw [if_pos hcond]
    obtain ⟨he, hr⟩ := hcond
    refine ⟨⟨fun _ => ?_, fun _ => ⟨_, rfl⟩⟩, ?_, ?_⟩
    · have hall : ∀ o ∈ outcomes, o.isErr = true :=
        (okResponses_eq_nil_iff outcomes).mp (List.eq_nil_of_length_eq_zero hr)
      refine ⟨?_, hall⟩
      intro hnil
      subst hnil
      simp [errMsgs] at he
    · intro e hee m hm
      have he2 : e = "Query execution failed: " ++ joinSemicolon (errMsgs outcomes) := by
        injection hee.symm
      subst he2
      have hmm : m ∈ errMsgs outcomes := by
        rw [errMsgs, List.mem_filterMap]
        exact ⟨QOutcome.err m, hm, rfl⟩
      obtain ⟨s, t, hst⟩ := mem_joinSemicolon_infix m (errMsgs outcomes) hmm
      refine ⟨"Query execution failed: ".data ++ s, t, ?_⟩
      simp only [String.data_append]
      rw [← hst]
      simp [List.append_assoc]
    · intro rs bs h
      cases h
  · rw [if_neg hcond]
    refine ⟨⟨?_, fun hh => ?_⟩, ?_, ?_⟩
    · rintro ⟨e, he⟩
      cases he
    · obtain ⟨hne, hall⟩ := hh
      exfalso
      apply hcond
      constructor
      · have hnn : errMsgs outcomes ≠ [] := by
          rw [errMsgs_ne_nil_iff]
          match outcomes, hne with
          | o :: rest, _ => exact ⟨o, by simp, hall o (by simp)⟩
        cases hlen : (errMsgs outcomes).length with
        | zero => exact absurd (List.eq_nil_of_length_eq_zero hlen) hnn
        | succ n => omega
      · rw [(okResponses_eq_nil_iff outcomes).mpr hall]
        rfl
    · intro e he
      cases he
    · intro rs bs h
      injection h with h2
      rw [Prod.mk.injEq] at h2
      exact ⟨h2.1.symm, h2.2.symm⟩

/-- Witness for C5: two failing queries raise one aggregated error; a
mixed batch returns the single success without raising. -/
theorem c5_parallel_set_failure_policy_witness :
    ((∃ e, executeSet 10 [QOutcome.err "boom A", QOutcome.err "boom B"] = .error e) ↔
      ([QOutcome.err "boom A", QOutcome.err "boom B"] ≠ [] ∧
        ∀ o ∈ [QOutcome.err "boom A", QOutcome.err "boom B"], o.isErr = true)) ∧
    (∀ e, executeSet 10 [QOutcome.err "boom A", QOutcome.err "boom B"] = .error e →
      ∀ m, QOutcome.err m ∈ [QOutcome.err "boom A", QOutcome.err "boom B"] →
        m.data <:+: e.data) ∧
    (∀ rs bs, executeSet 10 [QOutcome.err "boom A", QOutcome.err "boom B"] = .ok (rs, bs) →
      rs = okResponses [QOutcome.err "boom A", QOutcome.err "boom B"] ∧
      bs = okBlobs [QOutcome.err "boom A", QOutcome.err "boom B"]) :=
  c5_parallel_set_failure_policy 10 [QOutcome.err "boom A", QOutcome.err "boom B"]
    (by omega)

end Aperture
